import Mathlib

/-!
Shallow embedding of the survey web application (`app.py`) of the
CS4990-Project1 repository, together with theorems settling the claims of
its natural-language specification.

Modelling conventions:
* Python dicts are association lists (`List (String × α)`): assignment to a
  fresh key appends at the end (insertion order), assignment to an existing
  key updates in place (`setA`), lookup returns `Option` (`lookupA`).
* ISO-8601 UTC timestamp strings compare consistently with the instants they
  denote, so the `ts` column is modelled as `Nat`; `ORDER BY ts DESC`
  becomes a pairwise-descending hypothesis on the fetched list.
* Python floats are IEEE-754 binary64. Every binary64 value is a rational,
  and Python's `int / int`, `float * int` and `round(float, 1)` are
  correctly rounded, so they are modelled exactly on `ℚ` by `fl`
  (round-to-nearest, ties-to-even, 53-bit significand, exponents clamped at
  the subnormal floor `2^(-1074)`; overflow is not modelled because every
  value rounded here is at most 1000). `int(idx / len(figs) * 100)` is
  `pctOf` and `round(correct / total * 100, 1)` is `pyAccuracy`, both built
  from `fl` step by step. The exact-rational reading of the rounding
  formulas (what an idealised implementation would compute) is kept
  separately as `round1` for comparison.
* `sorted(..., key=...)` is a stable sort, modelled by a stable insertion
  sort (`sortByKey`).
* The figures directory listing (`list_figures()`) is a request-time input,
  passed as the `dirFigs : List String` parameter.
-/

/- Batteries marks `Rat` arithmetic `@[irreducible]`; restore the default
reducibility so that concrete rational computations reduce under `decide`. -/
attribute [local semireducible] Rat.mul Rat.inv Rat.add Rat.sub

set_option maxRecDepth 40000

/-- A catalog entry of `QUESTIONS` / `DEFAULT_QUESTION`: prompt, ordered
choice labels, optional correct choice. -/
structure Question where
  prompt : String
  choices : List String
  correct : Option String
deriving DecidableEq, Repr

/-- One row of the `responses` table, as selected by `fetch_responses`
(plus the `question` column, which `fetch_responses` omits and the stats
code never reads). -/
structure Response where
  ts : Nat
  user_id : String
  figure : String
  question : String
  choice : String
  correct_choice : Option String
  is_correct : Option Nat
deriving DecidableEq, Repr

/-- Python truthiness of the nullable integer `is_correct` column:
`None` and `0` are falsy, any other integer is truthy. -/
def truthy (o : Option Nat) : Bool :=
  match o with
  | none => false
  | some n => n != 0

/-- Dict lookup: `d.get(k)` / `d[k]` on an association list. -/
def lookupA {α : Type} (m : List (String × α)) (k : String) : Option α :=
  match m with
  | [] => none
  | (k2, v) :: rest => if k2 = k then some v else lookupA rest k

/-- Dict assignment `d[k] = v`: update in place if the key exists,
append at the end (insertion order) otherwise. -/
def setA {α : Type} (m : List (String × α)) (k : String) (v : α) : List (String × α) :=
  match m with
  | [] => [(k, v)]
  | (k2, v2) :: rest => if k2 = k then (k2, v) :: rest else (k2, v2) :: setA rest k v

/-- The static `QUESTIONS` catalog of `app.py`. -/
def QUESTIONS : List (String × Question) := [
  ("Devin-Figure1-NoAids.png",
   { prompt := "Does Kit Kat have approximately more or less than 35% sugar?",
     choices := ["More", "Less", "About 35%"],
     correct := some "Less" }),
  ("Devin-Figure2.png",
   { prompt := "Approximate the difference in sugar percentage between Milky Way and Twix.",
     choices := ["~3%", "~8%", "~15%", "~20%"],
     correct := some "~8%" }),
  ("Devin-Figure3.png",
   { prompt := "Is there a larger gap in sugar percentage between Milky Way and Twix, or between Milky Way and Snickers?",
     choices := ["Milky Way and Twix", "Milky Way and Snickers", "The gap is about the same"],
     correct := some "Milky Way and Snickers" }),
  ("Tim-Figure1-NoAids.png",
   { prompt := "What is the average win percent of pluribus candy?",
     choices := ["55%", "45%", "35%", "60%"],
     correct := some "45%" }),
  ("Tim-Figure2.png",
   { prompt := "Which Candy is closest to 60% win percent?",
     choices := ["Bar", "Chocolate", "Nougat", "Caramel"],
     correct := some "Nougat" }),
  ("Tim-Figure3.png",
   { prompt := "What is the win percent difference between fruity and hard candy?",
     choices := ["5%", "10%", "20%", "30%"],
     correct := some "5%" }),
  ("Donovan-Figure1-NoAids.png",
   { prompt := "What sugar has the highest average Price Percentage?",
     choices := ["Low", "Medium", "High", "All Equal"],
     correct := some "High" }),
  ("Donovan-Figure2.png",
   { prompt := "What is the Average Price Percentage of High Sugar candies?",
     choices := ["0.35", "0.42", "0.8", "0.51"],
     correct := some "0.51" }),
  ("Donovan-Figure3.png",
   { prompt := "What is the Approximate difference between low and high sugar candies?",
     choices := ["No Difference", "0.25", "0.03", "0.5"],
     correct := some "0.25" }),
  ("Branden-Figure1-NoAids.png",
   { prompt := "Which sugar category has the highest average popularity?",
     choices := ["Low sugar", "Medium sugar", "High sugar", "All are equal"],
     correct := some "Medium sugar" }),
  ("Branden-Figure2.png",
   { prompt := "Medium sugar candies are approximately",
     choices := ["Below 50%", "Exactly 50%", "Slightly above 50%", "Above 70%"],
     correct := some "Slightly above 50%" }),
  ("Branden-Figure3.png",
   { prompt := "About how much higher is Medium sugar compared to High sugar?",
     choices := ["1-2%", "5-6%", "10%", "20%"],
     correct := some "1-2%" })]

/-- The `DEFAULT_QUESTION` fallback of `app.py`. -/
def DEFAULT_QUESTION : Question :=
  { prompt := "Based on the figure, which option best answers the question?",
    choices := ["A", "B", "C", "D"],
    correct := none }

/-- `QUESTIONS.get(fig_name, DEFAULT_QUESTION)`. -/
def questionFor (fig : String) : Question :=
  (lookupA QUESTIONS fig).getD DEFAULT_QUESTION

/-- The Flask session as read by the `survey` view: `session.get("user_id")`,
`session.get("idx", 0)` (default 0 built in), `session.get("figs")`. -/
structure SurveySession where
  user_id : Option String
  idx : Nat
  figs : Option (List String)
deriving DecidableEq, Repr

/-- `figs = session.get("figs") or list_figures()`: Python `or` falls through
to the fresh directory listing when the session value is `None` or the empty
list (both falsy). -/
def effectiveFigs (sess : SurveySession) (dirFigs : List String) : List String :=
  match sess.figs with
  | none => dirFigs
  | some l => if l.isEmpty then dirFigs else l

/-- Round-half-to-even to an integer, exactly on `ℚ`: the rounding rule of
IEEE-754 round-to-nearest and of Python `round`. -/
def roundHalfEven (q : ℚ) : ℤ :=
  let f := ⌊q⌋
  let frac := q - f
  if frac < 1/2 then f
  else if 1/2 < frac then f + 1
  else if f % 2 = 0 then f else f + 1

/-- Fuel-driven binary length (structurally recursive so the kernel can
evaluate it on literals). -/
def bitLenAux : Nat → Nat → Nat
  | 0, _ => 0
  | fuel+1, n => if n = 0 then 0 else bitLenAux fuel (n / 2) + 1

/-- Number of binary digits of `n` (`0` for `0`): `bitLen n = ⌊log2 n⌋ + 1`
for `n ≥ 1`, certified by `bitLen_spec`. -/
def bitLen (n : Nat) : Nat := bitLenAux n n

/-- `⌊log2 q⌋` for a positive rational, certified by `ilog2_sandwich`:
`2 ^ ilog2 q ≤ q < 2 ^ (ilog2 q + 1)`. -/
def ilog2 (q : ℚ) : ℤ :=
  let d : ℤ := (bitLen q.num.toNat : ℤ) - (bitLen q.den : ℤ)
  if (2:ℚ) ^ d ≤ q then d else d - 1

/-- The IEEE-754 binary64 value nearest to a non-negative rational
(ties to even): the significand grid has step `2 ^ e` where `e` places 53
significant bits, clamped at the subnormal floor `2 ^ (-1074)`. -/
def flMag (q : ℚ) : ℚ :=
  if q ≤ 0 then 0
  else
    let e : ℤ := max (ilog2 q - 52) (-1074)
    (roundHalfEven (q / (2 : ℚ) ^ e) : ℚ) * (2 : ℚ) ^ e

/-- Binary64 rounding of a rational; negative values by symmetry. -/
def fl (q : ℚ) : ℚ :=
  if q < 0 then -flMag (-q) else flMag q

/-- Python `int(idx / n * 100)` as the survey view computes it: `idx / n` is
the correctly rounded double of the exact quotient, the product with `100`
is again rounded to a double, and `int` truncates (floor, as the value is
non-negative). -/
def pctOf (idx n : Nat) : Nat :=
  (⌊fl (fl ((idx : ℚ) / (n : ℚ)) * 100)⌋).toNat

/-- Result of `GET /survey`: either the redirect to `/complete`, or the
rendered question page with its template arguments `fig`, `q`, `idx`, `n`,
`pct`. -/
inductive GetResult where
  | redirectComplete : GetResult
  | page (fig : String) (q : Question) (idx : Nat) (n : Nat) (pct : Nat) : GetResult
deriving DecidableEq, Repr

/-- The `GET` branch of the `survey` view. `pct = int(idx / len(figs) * 100)`
is computed in binary64 floating point (`pctOf`). -/
def surveyGet (sess : SurveySession) (dirFigs : List String) : GetResult :=
  let figs := effectiveFigs sess dirFigs
  if figs.length ≤ sess.idx then
    .redirectComplete
  else
    let fig_name := figs.getD sess.idx ""
    let q := questionFor fig_name
    let pct := pctOf sess.idx figs.length
    .page fig_name q sess.idx figs.length pct

/-- Result of `POST /survey`: either the redirect to `/complete` (nothing
inserted), or the row passed to `insert_response` together with the new
session index. -/
inductive PostResult where
  | redirectComplete : PostResult
  | submitted (rec : Response) (newIdx : Nat) : PostResult
deriving DecidableEq, Repr

/-- The `POST` branch of the `survey` view. `form_choice` is the request
form's `choice` field (`none` when absent; `request.form.get("choice", "")`
defaults it to `""`); `now` is the timestamp `insert_response` stamps. -/
def surveyPost (sess : SurveySession) (dirFigs : List String)
    (form_choice : Option String) (now : Nat) : PostResult :=
  let figs := effectiveFigs sess dirFigs
  if figs.length ≤ sess.idx then
    .redirectComplete
  else
    let fig_name := figs.getD sess.idx ""
    let q := questionFor fig_name
    let choice := form_choice.getD ""
    let is_correct : Option Nat :=
      match q.correct with
      | none => none
      | some c => some (if choice = c then 1 else 0)
    .submitted
      { ts := now
        user_id := sess.user_id.getD "unknown"
        figure := fig_name
        question := q.prompt
        choice := choice
        correct_choice := q.correct
        is_correct := is_correct }
      (sess.idx + 1)

/-- Repeated `POST /survey` requests against a fixed directory listing:
each element of `inputs` is one request's `(choice field, timestamp)`.
A submitted request stores its row and carries the advanced index into the
session (`session["idx"] = idx + 1`); a redirected request stores nothing. -/
def runPosts (dirFigs : List String) :
    SurveySession → List (Option String × Nat) → SurveySession × List Response
  | sess, [] => (sess, [])
  | sess, (c, now) :: rest =>
    match surveyPost sess dirFigs c now with
    | .redirectComplete => runPosts dirFigs sess rest
    | .submitted rec newIdx =>
      let out := runPosts dirFigs { sess with idx := newIdx } rest
      (out.1, rec :: out.2)

/-- The three dicts built by the pivot loop of the `stats` view:
`user_answers`, `user_first_ts`, `user_correct`. -/
structure StatsState where
  user_answers : List (String × List (String × String))
  user_first_ts : List (String × Nat)
  user_correct : List (String × Nat)
deriving DecidableEq, Repr

/-- One iteration of the pivot loop of `stats` on a fetched row `r`:
first-seen participants get fresh entries in all three dicts, then
`user_answers[uid][r.figure] = r.choice`, then `user_correct[uid] += 1`
when `r.is_correct` is truthy. -/
def stepStats (st : StatsState) (r : Response) : StatsState :=
  let st1 :=
    if (lookupA st.user_answers r.user_id).isNone then
      { user_answers := st.user_answers ++ [(r.user_id, [])]
        user_first_ts := st.user_first_ts ++ [(r.user_id, r.ts)]
        user_correct := st.user_correct ++ [(r.user_id, 0)] }
    else st
  let inner := (lookupA st1.user_answers r.user_id).getD []
  let st2 := { st1 with
    user_answers := setA st1.user_answers r.user_id (setA inner r.figure r.choice) }
  if truthy r.is_correct then
    { st2 with
      user_correct := setA st2.user_correct r.user_id
        ((lookupA st2.user_correct r.user_id).getD 0 + 1) }
  else st2

/-- The pivot loop of `stats` run over the whole fetched row list. -/
def statsStateOf (raw : List Response) : StatsState :=
  raw.foldl stepStats ⟨[], [], []⟩

/-- `user_answers[uid].get(fig)`: the choice the pivot currently stores for
participant `uid` and figure `fig` (`none` when either key is absent). -/
def innerChoice (st : StatsState) (uid fig : String) : Option String :=
  lookupA ((lookupA st.user_answers uid).getD []) fig

/-- One row of the rendered participant matrix: truncated participant id,
the stored row-ordering timestamp, the answer list aligned to the figure
list, and the correct count. -/
structure PivotRow where
  user_id : String
  ts : Nat
  answers : List String
  correct : Nat
deriving DecidableEq, Repr

/-- Stable insertion of `x` after every already-placed element whose key is
not larger. -/
def insertByKey (key : String → Nat) (x : String) : List String → List String
  | [] => [x]
  | y :: ys => if key y ≤ key x then y :: insertByKey key x ys else x :: y :: ys

/-- Stable sort by key, modelling Python `sorted(seq, key=...)`: elements
are inserted left to right, each after all earlier elements with an equal
key. -/
def sortByKey (key : String → Nat) (l : List String) : List String :=
  l.foldl (fun acc x => insertByKey key x acc) []

/-- The `pivot` list comprehension of `stats`: participants sorted by their
stored `user_first_ts` value, each with `uid[:8]`, the stored timestamp,
`[user_answers[uid].get(fig, "—") for fig in figures]`, and the correct
count. -/
def pivotOf (figures : List String) (raw : List Response) : List PivotRow :=
  let st := statsStateOf raw
  let tsOf := fun uid => (lookupA st.user_first_ts uid).getD 0
  let uids := st.user_answers.map Prod.fst
  (sortByKey tsOf uids).map fun uid =>
    { user_id := uid.take 8
      ts := tsOf uid
      answers := figures.map fun fig => (innerChoice st uid fig).getD "—"
      correct := (lookupA st.user_correct uid).getD 0 }

/-- The per-figure accuracy loop of `stats`: `fig_totals` and `fig_correct`
start at 0 for every listed figure, and each fetched row whose figure is a
key (`if fig in fig_totals`) bumps the total, and the correct count when
`is_correct` is truthy. Rows for unlisted figures are skipped. This is one loop iteration. -/
def stepFigCounts (tc : List (String × Nat) × List (String × Nat)) (r : Response) :
    List (String × Nat) × List (String × Nat) :=
  if (lookupA tc.1 r.figure).isSome then
    (setA tc.1 r.figure ((lookupA tc.1 r.figure).getD 0 + 1),
     if truthy r.is_correct then
       setA tc.2 r.figure ((lookupA tc.2 r.figure).getD 0 + 1)
     else tc.2)
  else tc

/-- The whole per-figure accuracy loop: `(fig_totals, fig_correct)` after
folding every fetched row. -/
def figCountsOf (figures : List String) (raw : List Response) :
    List (String × Nat) × List (String × Nat) :=
  raw.foldl stepFigCounts
    (figures.map (fun f => (f, 0)), figures.map (fun f => (f, 0)))

/-- The exact-rational reading of `round(correct / total * 100, 1)` — the
formula as the spec words it, with no floating-point error. The program's
actual double-precision computation is `pyAccuracy`; the two differ on some
inputs (see the C5 counterexample). -/
def round1 (correct total : Nat) : ℚ :=
  (roundHalfEven ((correct : ℚ) / (total : ℚ) * 100 * 10) : ℚ) / 10

/-- `round(correct / total * 100, 1)` as the stats view computes it:
`correct / total` is the correctly rounded double of the exact quotient,
the product with `100` is again rounded to a double, and CPython `round`
rounds the exact value of that double half-to-even at one decimal and
returns the double nearest the resulting decimal. -/
def pyAccuracy (correct total : Nat) : ℚ :=
  fl ((roundHalfEven (10 * fl (fl ((correct : ℚ) / (total : ℚ)) * 100)) : ℚ) / 10)

/-- One entry of the `fig_stats` list comprehension of `stats`. -/
structure FigStat where
  figure : String
  question : String
  correct : Nat
  total : Nat
  accuracy : Option ℚ
deriving DecidableEq, Repr

/-- The `fig_stats` list comprehension: one entry per listed figure, with
accuracy `round(correct/total*100, 1)` computed in binary64 floating point
(`pyAccuracy`) when the total is nonzero and `None` otherwise. -/
def figStatsOf (figures : List String) (raw : List Response) : List FigStat :=
  let tc := figCountsOf figures raw
  figures.map fun fig =>
    let total := (lookupA tc.1 fig).getD 0
    let corr := (lookupA tc.2 fig).getD 0
    { figure := fig
      question := (questionFor fig).prompt
      correct := corr
      total := total
      accuracy := if total = 0 then none else some (pyAccuracy corr total) }

/-- The last element of `l` satisfying `p`, if any: the record whose write
survives when a loop over `l` overwrites one dict slot per matching
element. -/
def findLast (p : Response → Bool) : List Response → Option Response
  | [] => none
  | r :: rest =>
    match findLast p rest with
    | some x => some x
    | none => if p r then some r else none

/-! ## Concrete inputs used as witnesses and counterexamples -/

/-- Three fetched rows in the descending-timestamp order of
`fetch_responses`: participant `alice` responded at times 1 and 10,
participant `bob` at time 5. -/
def rawC1 : List Response :=
  [{ ts := 10, user_id := "alice", figure := "f1.png", question := "q", choice := "x",
     correct_choice := none, is_correct := none },
   { ts := 5, user_id := "bob", figure := "f1.png", question := "q", choice := "y",
     correct_choice := none, is_correct := none },
   { ts := 1, user_id := "alice", figure := "f1.png", question := "q", choice := "z",
     correct_choice := none, is_correct := none }]

/-- Two fetched rows of one participant for one figure, timestamps 2 then 1. -/
def rawDup : List Response :=
  [{ ts := 2, user_id := "u", figure := "f.png", question := "q", choice := "late",
     correct_choice := some "late", is_correct := some 1 },
   { ts := 1, user_id := "u", figure := "f.png", question := "q", choice := "early",
     correct_choice := some "late", is_correct := some 0 }]

/-- The second (earliest) row of `rawDup`. -/
def rawDupEarly : Response :=
  { ts := 1, user_id := "u", figure := "f.png", question := "q", choice := "early",
    correct_choice := some "late", is_correct := some 0 }

/-- One correct response for a figure that is not in the current directory
listing. -/
def rawGhost : List Response :=
  [{ ts := 5, user_id := "u1", figure := "ghost.png", question := "q", choice := "X",
     correct_choice := some "X", is_correct := some 1 }]

/-- A correct and an incorrect response for figure `f.png`. -/
def recRight : Response :=
  { ts := 9, user_id := "u", figure := "f.png", question := "q", choice := "c",
    correct_choice := some "c", is_correct := some 1 }

def recWrong : Response :=
  { ts := 9, user_id := "u", figure := "f.png", question := "q", choice := "x",
    correct_choice := some "c", is_correct := some 0 }

/-- 2000 fetched rows for figure `f.png`, of which exactly 127 are correct:
the exact accuracy ratio is 6.35%, a tie at the first decimal, where double
rounding and exact rounding disagree. -/
def raw2000 : List Response :=
  List.replicate 127 recRight ++ List.replicate 1873 recWrong

/-- A participant who answered figures `A.png` and `C.png` but not `B.png`. -/
def rawAC : List Response :=
  [{ ts := 2, user_id := "p", figure := "C.png", question := "q", choice := "ansC",
     correct_choice := none, is_correct := none },
   { ts := 1, user_id := "p", figure := "A.png", question := "q", choice := "ansA",
     correct_choice := none, is_correct := none }]

/-! ## Association-list lemmas -/

theorem lookupA_setA_self {α : Type} (m : List (String × α)) (k : String) (v : α) :
    lookupA (setA m k v) k = some v := by
  induction m with
  | nil => simp [setA, lookupA]
  | cons p rest ih =>
    obtain ⟨k2, v2⟩ := p
    by_cases h : k2 = k
    · simp [setA, lookupA, h]
    · simp [setA, lookupA, h, ih]

theorem lookupA_setA_ne {α : Type} (m : List (String × α)) (k k2 : String) (v : α)
    (h : k ≠ k2) : lookupA (setA m k v) k2 = lookupA m k2 := by
  induction m with
  | nil => simp [setA, lookupA, h]
  | cons p rest ih =>
    obtain ⟨k3, v3⟩ := p
    by_cases h3 : k3 = k
    · subst h3
      simp [setA, lookupA, h]
    · simp [setA, lookupA, h3, ih]

theorem lookupA_append_ne {α : Type} (m : List (String × α)) (k k2 : String) (v : α)
    (h : k ≠ k2) : lookupA (m ++ [(k, v)]) k2 = lookupA m k2 := by
  induction m with
  | nil => simp [lookupA, h]
  | cons p rest ih =>
    obtain ⟨k3, v3⟩ := p
    by_cases h3 : k3 = k2
    · simp [lookupA, h3]
    · simp [lookupA, h3, ih]

theorem lookupA_append_self {α : Type} (m : List (String × α)) (k : String) (v : α)
    (h : lookupA m k = none) : lookupA (m ++ [(k, v)]) k = some v := by
  induction m with
  | nil => simp [lookupA]
  | cons p rest ih =>
    obtain ⟨k3, v3⟩ := p
    by_cases h3 : k3 = k
    · simp [lookupA, h3] at h
    · simp [lookupA, h3] at h ⊢
      exact ih h

/-! ## Binary64 rounding lemmas: monotonicity and range of the float model -/

theorem bitLenAux_zero (fuel : Nat) : bitLenAux fuel 0 = 0 := by
  cases fuel <;> simp [bitLenAux]

theorem bitLenAux_spec : ∀ fuel n, n ≤ fuel → 1 ≤ n →
    2 ^ (bitLenAux fuel n - 1) ≤ n ∧ n < 2 ^ bitLenAux fuel n := by
  intro fuel
  induction fuel with
  | zero =>
    intro n hn h1
    omega
  | succ fuel ih =>
    intro n hn h1
    have hne : ¬(n = 0) := by omega
    simp only [bitLenAux, hne, if_false]
    by_cases h2 : n = 1
    · subst h2
      norm_num [bitLenAux_zero]
    · have hge2 : 2 ≤ n := by omega
      have hdiv : n / 2 ≤ fuel := by omega
      have hd1 : 1 ≤ n / 2 := by omega
      obtain ⟨hlo, hhi⟩ := ih (n / 2) hdiv hd1
      have hLpos : 1 ≤ bitLenAux fuel (n / 2) := by
        by_contra hc
        push_neg at hc
        have h0 : bitLenAux fuel (n / 2) = 0 := by omega
        rw [h0] at hhi
        norm_num at hhi
        omega
      constructor
      · have h3 : 2 ^ bitLenAux fuel (n / 2) = 2 * 2 ^ (bitLenAux fuel (n / 2) - 1) := by
          cases hL : bitLenAux fuel (n / 2) with
          | zero => omega
          | succ l =>
            rw [pow_succ]
            ring_nf
            simp
        have h4 : 2 ^ (bitLenAux fuel (n / 2) + 1 - 1) = 2 ^ bitLenAux fuel (n / 2) := by
          norm_num
        rw [h4, h3]
        omega
      · have h5 : 2 ^ (bitLenAux fuel (n / 2) + 1) = 2 * 2 ^ bitLenAux fuel (n / 2) := by
          rw [pow_succ]
          ring
        rw [h5]
        omega

theorem bitLen_spec (n : Nat) (h : 1 ≤ n) :
    2 ^ (bitLen n - 1) ≤ n ∧ n < 2 ^ bitLen n :=
  bitLenAux_spec n n le_rfl h

theorem bitLen_pos (n : Nat) (h : 1 ≤ n) : 1 ≤ bitLen n := by
  obtain ⟨_, hhi⟩ := bitLen_spec n h
  by_contra hc
  push_neg at hc
  have h0 : bitLen n = 0 := by omega
  rw [h0] at hhi
  norm_num at hhi
  omega

theorem ilog2_sandwich (q : ℚ) (hq : 0 < q) :
    (2:ℚ) ^ ilog2 q ≤ q ∧ q < (2:ℚ) ^ (ilog2 q + 1) := by
  have hnum : 0 < q.num := Rat.num_pos.mpr hq
  have ha : ((q.num.toNat : ℤ)) = q.num := Int.toNat_of_nonneg (le_of_lt hnum)
  have ha1 : 1 ≤ q.num.toNat := by omega
  have hb1 : 1 ≤ q.den := Rat.den_pos q
  obtain ⟨halo, hahi⟩ := bitLen_spec q.num.toNat ha1
  obtain ⟨hblo, hbhi⟩ := bitLen_spec q.den hb1
  have hq_eq : ((q.num.toNat : ℚ)) / ((q.den : ℚ)) = q := by
    calc ((q.num.toNat : ℚ)) / ((q.den : ℚ)) = ((q.num : ℚ)) / ((q.den : ℚ)) := by
          congr 1
          exact_mod_cast ha
      _ = q := Rat.num_div_den q
  have hbpos : (0:ℚ) < (q.den : ℚ) := by exact_mod_cast hb1
  have hapos : (0:ℚ) < (q.num.toNat : ℚ) := by exact_mod_cast ha1
  have hcastA : (2:ℚ) ^ ((bitLen q.num.toNat : ℤ) - 1) =
      ((2 ^ (bitLen q.num.toNat - 1) : ℕ) : ℚ) := by
    rw [show (bitLen q.num.toNat : ℤ) - 1 = ((bitLen q.num.toNat - 1 : ℕ) : ℤ) by
        have := bitLen_pos q.num.toNat ha1
        omega,
      zpow_natCast]
    push_cast
    ring
  have hcastA2 : (2:ℚ) ^ ((bitLen q.num.toNat : ℤ)) =
      ((2 ^ bitLen q.num.toNat : ℕ) : ℚ) := by
    rw [show ((bitLen q.num.toNat : ℤ)) = ((bitLen q.num.toNat : ℕ) : ℤ) by omega,
      zpow_natCast]
    push_cast
    ring
  have hcastB : (2:ℚ) ^ ((bitLen q.den : ℤ) - 1) =
      ((2 ^ (bitLen q.den - 1) : ℕ) : ℚ) := by
    rw [show (bitLen q.den : ℤ) - 1 = ((bitLen q.den - 1 : ℕ) : ℤ) by
        have := bitLen_pos q.den hb1
        omega,
      zpow_natCast]
    push_cast
    ring
  have hcastB2 : (2:ℚ) ^ ((bitLen q.den : ℤ)) = ((2 ^ bitLen q.den : ℕ) : ℚ) := by
    rw [show ((bitLen q.den : ℤ)) = ((bitLen q.den : ℕ) : ℤ) by omega, zpow_natCast]
    push_cast
    ring
  have halo' : (2:ℚ) ^ ((bitLen q.num.toNat : ℤ) - 1) ≤ (q.num.toNat : ℚ) := by
    rw [hcastA]
    exact_mod_cast halo
  have hahi' : (q.num.toNat : ℚ) < (2:ℚ) ^ ((bitLen q.num.toNat : ℤ)) := by
    rw [hcastA2]
    exact_mod_cast hahi
  have hblo' : (2:ℚ) ^ ((bitLen q.den : ℤ) - 1) ≤ (q.den : ℚ) := by
    rw [hcastB]
    exact_mod_cast hblo
  have hbhi' : (q.den : ℚ) < (2:ℚ) ^ ((bitLen q.den : ℤ)) := by
    rw [hcastB2]
    exact_mod_cast hbhi
  simp only [ilog2]
  by_cases hcond : (2:ℚ) ^ ((bitLen q.num.toNat : ℤ) - (bitLen q.den : ℤ)) ≤ q
  · rw [if_pos hcond]
    refine ⟨hcond, ?_⟩
    calc q = (q.num.toNat : ℚ) / (q.den : ℚ) := hq_eq.symm
      _ ≤ (q.num.toNat : ℚ) / (2:ℚ) ^ ((bitLen q.den : ℤ) - 1) := by
          gcongr
      _ < (2:ℚ) ^ ((bitLen q.num.toNat : ℤ)) / (2:ℚ) ^ ((bitLen q.den : ℤ) - 1) := by
          gcongr
      _ = (2:ℚ) ^ ((bitLen q.num.toNat : ℤ) - (bitLen q.den : ℤ) + 1) := by
          rw [← zpow_sub₀ (by norm_num : (2:ℚ) ≠ 0)]
          congr 1
          omega
  · rw [if_neg hcond]
    push_neg at hcond
    constructor
    · calc (2:ℚ) ^ ((bitLen q.num.toNat : ℤ) - (bitLen q.den : ℤ) - 1)
          = (2:ℚ) ^ ((bitLen q.num.toNat : ℤ) - 1) / (2:ℚ) ^ ((bitLen q.den : ℤ)) := by
            rw [← zpow_sub₀ (by norm_num : (2:ℚ) ≠ 0)]
            congr 1
            omega
        _ ≤ (q.num.toNat : ℚ) / (2:ℚ) ^ ((bitLen q.den : ℤ)) := by
            gcongr
        _ ≤ (q.num.toNat : ℚ) / (q.den : ℚ) := by
            gcongr
        _ = q := hq_eq
    · have harith : (bitLen q.num.toNat : ℤ) - (bitLen q.den : ℤ) - 1 + 1 =
          (bitLen q.num.toNat : ℤ) - (bitLen q.den : ℤ) := by omega
      rw [harith]
      exact hcond

theorem ilog2_mono {x y : ℚ} (hx : 0 < x) (hxy : x ≤ y) : ilog2 x ≤ ilog2 y := by
  by_contra hc
  push_neg at hc
  have h1 := (ilog2_sandwich x hx).1
  have h2 := (ilog2_sandwich y (lt_of_lt_of_le hx hxy)).2
  have h3 : (2:ℚ) ^ (ilog2 y + 1) ≤ (2:ℚ) ^ ilog2 x :=
    zpow_le_zpow_right₀ (by norm_num) (by omega)
  linarith

theorem le_roundHalfEven (q : ℚ) : ⌊q⌋ ≤ roundHalfEven q := by
  simp only [roundHalfEven]
  split_ifs <;> omega

theorem roundHalfEven_le_floor_add_one (q : ℚ) : roundHalfEven q ≤ ⌊q⌋ + 1 := by
  simp only [roundHalfEven]
  split_ifs <;> omega

theorem roundHalfEven_intCast (m : ℤ) : roundHalfEven (m : ℚ) = m := by
  simp only [roundHalfEven, Int.floor_intCast]
  norm_num

theorem roundHalfEven_eq_zero (q : ℚ) (h0 : 0 ≤ q) (h1 : q < 1/2) :
    roundHalfEven q = 0 := by
  have hf : ⌊q⌋ = 0 := by
    rw [Int.floor_eq_zero_iff]
    exact Set.mem_Ico.mpr ⟨h0, by linarith⟩
  simp only [roundHalfEven, hf, Int.cast_zero, sub_zero]
  rw [if_pos h1]

theorem roundHalfEven_mono {x y : ℚ} (h : x ≤ y) :
    roundHalfEven x ≤ roundHalfEven y := by
  have hf : ⌊x⌋ ≤ ⌊y⌋ := Int.floor_le_floor h
  rcases lt_or_eq_of_le hf with hlt | heq
  · calc roundHalfEven x ≤ ⌊x⌋ + 1 := roundHalfEven_le_floor_add_one x
      _ ≤ ⌊y⌋ := by omega
      _ ≤ roundHalfEven y := le_roundHalfEven y
  · simp only [roundHalfEven, ← heq]
    by_cases h1 : x - ⌊x⌋ < 1/2
    · rw [if_pos h1]
      split_ifs <;> omega
    · rw [if_neg h1]
      by_cases h2 : 1/2 < x - ⌊x⌋
      · rw [if_pos h2, if_neg (by linarith), if_pos (by linarith)]
      · have hx2 : x - ⌊x⌋ = 1/2 := le_antisymm (not_lt.mp h2) (not_lt.mp h1)
        rw [if_neg h2]
        by_cases hy1 : y - ⌊x⌋ < 1/2
        · exact absurd hy1 (by linarith)
        · rw [if_neg hy1]
          by_cases hy2 : 1/2 < y - ⌊x⌋
          · rw [if_pos hy2]
            split_ifs <;> omega
          · rw [if_neg hy2]

theorem flMag_nonneg (q : ℚ) : 0 ≤ flMag q := by
  simp only [flMag]
  split_ifs with h
  · exact le_refl 0
  · have hq : 0 < q := lt_of_not_le h
    have hdiv : (0:ℚ) ≤ q / (2:ℚ) ^ max (ilog2 q - 52) (-1074 : ℤ) := by positivity
    have hr : (0:ℤ) ≤ roundHalfEven (q / (2:ℚ) ^ max (ilog2 q - 52) (-1074 : ℤ)) := by
      have h1 : (0:ℤ) ≤ ⌊q / (2:ℚ) ^ max (ilog2 q - 52) (-1074 : ℤ)⌋ :=
        Int.floor_nonneg.mpr hdiv
      have h2 := le_roundHalfEven (q / (2:ℚ) ^ max (ilog2 q - 52) (-1074 : ℤ))
      omega
    have hrq : (0:ℚ) ≤ (roundHalfEven (q / (2:ℚ) ^ max (ilog2 q - 52) (-1074 : ℤ)) : ℚ) := by
      exact_mod_cast hr
    positivity

theorem exists_int_two_zpow (k : ℤ) (hk : 0 ≤ k) :
    ∃ m : ℤ, ((m : ℚ)) = (2:ℚ) ^ k := by
  refine ⟨(2:ℤ) ^ k.toNat, ?_⟩
  have h1 : (2:ℚ) ^ k = (2:ℚ) ^ (k.toNat : ℤ) := by rw [Int.toNat_of_nonneg hk]
  rw [h1, zpow_natCast]
  push_cast
  ring

theorem roundHalfEven_two_zpow (k : ℤ) (hk : 0 ≤ k) :
    ((roundHalfEven ((2:ℚ) ^ k) : ℤ) : ℚ) = (2:ℚ) ^ k := by
  obtain ⟨m, hm⟩ := exists_int_two_zpow k hk
  rw [← hm, roundHalfEven_intCast]

theorem flMag_pos_eq (q : ℚ) (hq : 0 < q) :
    flMag q = (roundHalfEven (q / (2:ℚ) ^ max (ilog2 q - 52) (-1074 : ℤ)) : ℚ) *
      (2:ℚ) ^ max (ilog2 q - 52) (-1074 : ℤ) := by
  simp only [flMag]
  rw [if_neg (not_le.mpr hq)]

theorem flMag_le_two_zpow (q : ℚ) (hq : 0 < q) :
    flMag q ≤ (2:ℚ) ^ (ilog2 q + 1) := by
  have hpow : (0:ℚ) < (2:ℚ) ^ max (ilog2 q - 52) (-1074 : ℤ) := by positivity
  have hqlt : q < (2:ℚ) ^ (ilog2 q + 1) := (ilog2_sandwich q hq).2
  rw [flMag_pos_eq q hq]
  by_cases hcase : 0 ≤ ilog2 q + 1 - max (ilog2 q - 52) (-1074 : ℤ)
  · have hdiv : q / (2:ℚ) ^ max (ilog2 q - 52) (-1074 : ℤ) ≤
        (2:ℚ) ^ (ilog2 q + 1 - max (ilog2 q - 52) (-1074 : ℤ)) := by
      rw [zpow_sub₀ (by norm_num : (2:ℚ) ≠ 0)]
      gcongr
    have hr := roundHalfEven_mono hdiv
    have hc : (roundHalfEven (q / (2:ℚ) ^ max (ilog2 q - 52) (-1074 : ℤ)) : ℚ) ≤
        (2:ℚ) ^ (ilog2 q + 1 - max (ilog2 q - 52) (-1074 : ℤ)) := by
      rw [← roundHalfEven_two_zpow _ hcase]
      exact_mod_cast hr
    calc (roundHalfEven (q / (2:ℚ) ^ max (ilog2 q - 52) (-1074 : ℤ)) : ℚ) *
          (2:ℚ) ^ max (ilog2 q - 52) (-1074 : ℤ)
        ≤ (2:ℚ) ^ (ilog2 q + 1 - max (ilog2 q - 52) (-1074 : ℤ)) *
          (2:ℚ) ^ max (ilog2 q - 52) (-1074 : ℤ) :=
          mul_le_mul_of_nonneg_right hc (le_of_lt hpow)
      _ = (2:ℚ) ^ (ilog2 q + 1) := by
          rw [← zpow_add₀ (by norm_num : (2:ℚ) ≠ 0)]
          congr 1
          omega
  · have h1 : q / (2:ℚ) ^ max (ilog2 q - 52) (-1074 : ℤ) < 1/2 := by
      have h2 : q / (2:ℚ) ^ max (ilog2 q - 52) (-1074 : ℤ) <
          (2:ℚ) ^ (ilog2 q + 1 - max (ilog2 q - 52) (-1074 : ℤ)) := by
        rw [zpow_sub₀ (by norm_num : (2:ℚ) ≠ 0)]
        gcongr
      have h3 : (2:ℚ) ^ (ilog2 q + 1 - max (ilog2 q - 52) (-1074 : ℤ)) ≤
          (2:ℚ) ^ (-1 : ℤ) :=
        zpow_le_zpow_right₀ (by norm_num) (by omega)
      have h4 : ((2:ℚ) ^ (-1 : ℤ)) = 1/2 := by norm_num
      calc q / (2:ℚ) ^ max (ilog2 q - 52) (-1074 : ℤ)
          < (2:ℚ) ^ (ilog2 q + 1 - max (ilog2 q - 52) (-1074 : ℤ)) := h2
        _ ≤ (2:ℚ) ^ (-1 : ℤ) := h3
        _ = 1/2 := h4
    rw [roundHalfEven_eq_zero _ (by positivity) h1]
    simp
    positivity

theorem two_zpow_le_flMag (q : ℚ) (hq : 0 < q) (hbig : -1074 ≤ ilog2 q - 52) :
    (2:ℚ) ^ ilog2 q ≤ flMag q := by
  have he : max (ilog2 q - 52) (-1074 : ℤ) = ilog2 q - 52 := max_eq_left hbig
  rw [flMag_pos_eq q hq, he]
  have hqge : (2:ℚ) ^ ilog2 q ≤ q := (ilog2_sandwich q hq).1
  have hpow : (0:ℚ) < (2:ℚ) ^ (ilog2 q - 52) := by positivity
  have hdiv : (2:ℚ) ^ (52 : ℤ) ≤ q / (2:ℚ) ^ (ilog2 q - 52) := by
    rw [le_div_iff₀ hpow, ← zpow_add₀ (by norm_num : (2:ℚ) ≠ 0)]
    calc (2:ℚ) ^ (52 + (ilog2 q - 52)) = (2:ℚ) ^ ilog2 q := by
          congr 1
          omega
      _ ≤ q := hqge
  have hr := roundHalfEven_mono hdiv
  have hc : (2:ℚ) ^ (52 : ℤ) ≤
      (roundHalfEven (q / (2:ℚ) ^ (ilog2 q - 52)) : ℚ) := by
    rw [← roundHalfEven_two_zpow 52 (by norm_num)]
    exact_mod_cast hr
  calc (2:ℚ) ^ ilog2 q = (2:ℚ) ^ (52 : ℤ) * (2:ℚ) ^ (ilog2 q - 52) := by
        rw [← zpow_add₀ (by norm_num : (2:ℚ) ≠ 0)]
        congr 1
        omega
    _ ≤ (roundHalfEven (q / (2:ℚ) ^ (ilog2 q - 52)) : ℚ) *
        (2:ℚ) ^ (ilog2 q - 52) :=
        mul_le_mul_of_nonneg_right hc (le_of_lt hpow)

theorem flMag_mono {x y : ℚ} (hx : 0 < x) (hxy : x ≤ y) : flMag x ≤ flMag y := by
  have hy : 0 < y := lt_of_lt_of_le hx hxy
  have hlog : ilog2 x ≤ ilog2 y := ilog2_mono hx hxy
  have hex : max (ilog2 x - 52) (-1074 : ℤ) ≤ max (ilog2 y - 52) (-1074 : ℤ) :=
    max_le_max (by omega) le_rfl
  rcases eq_or_lt_of_le hex with heq | hlt
  · rw [flMag_pos_eq x hx, flMag_pos_eq y hy, ← heq]
    have hpow : (0:ℚ) < (2:ℚ) ^ max (ilog2 x - 52) (-1074 : ℤ) := by positivity
    have hdiv : x / (2:ℚ) ^ max (ilog2 x - 52) (-1074 : ℤ) ≤
        y / (2:ℚ) ^ max (ilog2 x - 52) (-1074 : ℤ) := by gcongr
    have hr := roundHalfEven_mono hdiv
    apply mul_le_mul_of_nonneg_right _ (le_of_lt hpow)
    exact_mod_cast hr
  · have hbigy : -1074 ≤ ilog2 y - 52 := by
      by_contra hc
      push_neg at hc
      have h1 : max (ilog2 y - 52) (-1074 : ℤ) = -1074 := max_eq_right (by omega)
      have h2 : (-1074 : ℤ) ≤ max (ilog2 x - 52) (-1074 : ℤ) := le_max_right _ _
      omega
    have hlxy : ilog2 x + 1 ≤ ilog2 y := by
      have h1 : max (ilog2 y - 52) (-1074 : ℤ) = ilog2 y - 52 := max_eq_left hbigy
      have h2 : ilog2 x - 52 ≤ max (ilog2 x - 52) (-1074 : ℤ) := le_max_left _ _
      omega
    calc flMag x ≤ (2:ℚ) ^ (ilog2 x + 1) := flMag_le_two_zpow x hx
      _ ≤ (2:ℚ) ^ ilog2 y := zpow_le_zpow_right₀ (by norm_num) hlxy
      _ ≤ flMag y := two_zpow_le_flMag y hy hbigy

theorem fl_nonneg {q : ℚ} (h : 0 ≤ q) : 0 ≤ fl q := by
  rw [fl, if_neg (not_lt.mpr h)]
  exact flMag_nonneg q

theorem fl_mono_nonneg {x y : ℚ} (hx : 0 ≤ x) (hxy : x ≤ y) : fl x ≤ fl y := by
  have hy : 0 ≤ y := le_trans hx hxy
  rw [fl, fl, if_neg (not_lt.mpr hx), if_neg (not_lt.mpr hy)]
  rcases eq_or_lt_of_le hx with heq | hpos
  · rw [← heq]
    have h0 : flMag 0 = 0 := by simp [flMag]
    rw [h0]
    exact flMag_nonneg y
  · exact flMag_mono hpos hxy

theorem fl_one : fl 1 = 1 := by decide

theorem fl_hundred : fl 100 = 100 := by decide

theorem pctOf_zero (n : Nat) : pctOf 0 n = 0 := by
  simp [pctOf, fl, flMag]

theorem pctOf_mono (n : Nat) {j k : Nat} (hjk : j ≤ k) : pctOf j n ≤ pctOf k n := by
  have h0 : (0:ℚ) ≤ (j : ℚ) / (n : ℚ) := by positivity
  have hd : (j : ℚ) / (n : ℚ) ≤ (k : ℚ) / (n : ℚ) := by
    rcases Nat.eq_zero_or_pos n with hn | hn
    · subst hn
      norm_num
    · have hnq : (0:ℚ) < (n : ℚ) := by exact_mod_cast hn
      gcongr
  have h1 := fl_mono_nonneg h0 hd
  have h1n : (0:ℚ) ≤ fl ((j:ℚ)/(n:ℚ)) := fl_nonneg h0
  have h2 : fl ((j:ℚ)/(n:ℚ)) * 100 ≤ fl ((k:ℚ)/(n:ℚ)) * 100 := by linarith
  have h3 := fl_mono_nonneg (mul_nonneg h1n (by norm_num)) h2
  have h4 := Int.floor_le_floor h3
  simp only [pctOf]
  omega

theorem pctOf_le_100 {i n : Nat} (h : i < n) : pctOf i n ≤ 100 := by
  have hn : (0:ℚ) < (n : ℚ) := by
    have : 0 < n := lt_of_le_of_lt (Nat.zero_le i) h
    exact_mod_cast this
  have hd : (i:ℚ)/(n:ℚ) ≤ 1 := by
    rw [div_le_one hn]
    exact_mod_cast le_of_lt h
  have h0 : (0:ℚ) ≤ (i:ℚ)/(n:ℚ) := by positivity
  have h1 : fl ((i:ℚ)/(n:ℚ)) ≤ fl 1 := fl_mono_nonneg h0 hd
  rw [fl_one] at h1
  have h1n : (0:ℚ) ≤ fl ((i:ℚ)/(n:ℚ)) := fl_nonneg h0
  have h2 : fl ((i:ℚ)/(n:ℚ)) * 100 ≤ 100 := by linarith
  have h3 : fl (fl ((i:ℚ)/(n:ℚ)) * 100) ≤ fl 100 :=
    fl_mono_nonneg (mul_nonneg h1n (by norm_num)) h2
  rw [fl_hundred] at h3
  have h4 : ⌊fl (fl ((i:ℚ)/(n:ℚ)) * 100)⌋ ≤ (100:ℤ) := by
    have h5 := Int.floor_le_floor h3
    have h6 : ⌊(100:ℚ)⌋ = 100 := by norm_num
    omega
  simp only [pctOf]
  omega

/-! ## What one pivot-loop iteration does to the stored choices -/

theorem stepStats_user_answers (st : StatsState) (r : Response) :
    (stepStats st r).user_answers =
      (let st1ua :=
        if (lookupA st.user_answers r.user_id).isNone then
          st.user_answers ++ [(r.user_id, [])]
        else st.user_answers
      setA st1ua r.user_id (setA ((lookupA st1ua r.user_id).getD []) r.figure r.choice)) := by
  by_cases h : (lookupA st.user_answers r.user_id).isNone <;>
    by_cases h2 : truthy r.is_correct <;>
      simp [stepStats, h, h2]

theorem innerChoice_step (st : StatsState) (r : Response) (uid fig : String) :
    innerChoice (stepStats st r) uid fig =
      if r.user_id = uid ∧ r.figure = fig then some r.choice
      else innerChoice st uid fig := by
  have hua := stepStats_user_answers st r
  simp only at hua
  by_cases hu : r.user_id = uid
  · subst hu
    by_cases h : (lookupA st.user_answers r.user_id).isNone
    · have hnone : lookupA st.user_answers r.user_id = none :=
        Option.isNone_iff_eq_none.mp h
      unfold innerChoice
      rw [hua]
      simp only [h, if_pos]
      rw [lookupA_setA_self]
      rw [lookupA_append_self _ _ _ hnone]
      by_cases hf : r.figure = fig
      · subst hf
        simp [lookupA_setA_self, hnone, lookupA]
      · simp [lookupA_setA_ne _ _ _ _ hf, hf, hnone, lookupA]
    · unfold innerChoice
      rw [hua]
      simp only [h, if_neg, if_false]
      rw [lookupA_setA_self]
      by_cases hf : r.figure = fig
      · subst hf
        simp [lookupA_setA_self]
      · simp [lookupA_setA_ne _ _ _ _ hf, hf]
  · unfold innerChoice
    rw [hua]
    have hcond : ¬(r.user_id = uid ∧ r.figure = fig) := fun hc => hu hc.1
    simp only [hcond, if_false]
    by_cases h : (lookupA st.user_answers r.user_id).isNone
    · simp only [h, if_pos]
      rw [lookupA_setA_ne _ _ _ _ hu, lookupA_append_ne _ _ _ _ hu]
    · simp only [h, if_neg, if_false]
      rw [lookupA_setA_ne _ _ _ _ hu]
      simp

theorem innerChoice_foldl (raw : List Response) (st : StatsState) (uid fig : String) :
    innerChoice (raw.foldl stepStats st) uid fig =
      (match findLast (fun r => r.user_id == uid && r.figure == fig) raw with
      | some r => some r.choice
      | none => innerChoice st uid fig) := by
  induction raw generalizing st with
  | nil => simp [findLast]
  | cons r rest ih =>
    rw [List.foldl_cons, ih]
    cases hf : findLast (fun r => r.user_id == uid && r.figure == fig) rest with
    | some x => simp [findLast, hf]
    | none =>
      rw [innerChoice_step]
      by_cases hc : r.user_id = uid ∧ r.figure = fig
      · simp [findLast, hf, hc]
      · have hb : (r.user_id == uid && r.figure == fig) = false := by
          rcases not_and_or.mp hc with h | h <;> simp [h]
        simp [findLast, hf, hc, hb]

/-! ## findLast characterizations -/

theorem findLast_eq_none_iff (p : Response → Bool) (l : List Response) :
    findLast p l = none ↔ ∀ r ∈ l, p r = false := by
  induction l with
  | nil => simp [findLast]
  | cons r rest ih =>
    cases hf : findLast p rest with
    | some x =>
      simp only [findLast, hf]
      constructor
      · intro h
        exact absurd h (by simp)
      · intro h
        have : ∀ x ∈ rest, p x = false := fun y hy => h y (List.mem_cons_of_mem _ hy)
        rw [← ih] at this
        rw [this] at hf
        exact absurd hf (by simp)
    | none =>
      simp only [findLast, hf]
      by_cases hp : p r
      · simp only [hp, if_true]
        constructor
        · intro h
          exact absurd h (by simp)
        · intro h
          have := h r (List.mem_cons_self _ _)
          rw [hp] at this
          exact absurd this (by simp)
      · simp only [hp, if_false]
        constructor
        · intro _ y hy
          rcases List.mem_cons.mp hy with rfl | hy2
          · exact Bool.eq_false_iff.mpr hp
          · exact (ih.mp hf) y hy2
        · intro _
          rfl

theorem findLast_eq_some (p : Response → Bool) (l : List Response) (r : Response)
    (h : findLast p l = some r) : r ∈ l ∧ p r = true := by
  induction l with
  | nil => simp [findLast] at h
  | cons x rest ih =>
    cases hf : findLast p rest with
    | some y =>
      simp only [findLast, hf, Option.some.injEq] at h
      subst h
      obtain ⟨hm, hp⟩ := ih hf
      exact ⟨List.mem_cons_of_mem _ hm, hp⟩
    | none =>
      simp only [findLast, hf] at h
      by_cases hp : p x
      · simp only [hp, if_true, Option.some.injEq] at h
        subst h
        exact ⟨List.mem_cons_self _ _, hp⟩
      · simp [hp] at h

theorem findLast_min_ts (p : Response → Bool) (raw : List Response)
    (hs : raw.Pairwise (fun a b => b.ts < a.ts)) (r0 : Response) (h0 : r0 ∈ raw)
    (hp : p r0 = true) (hmin : ∀ r ∈ raw, p r = true → r0.ts ≤ r.ts) :
    findLast p raw = some r0 := by
  induction raw with
  | nil => simp at h0
  | cons r rest ih =>
    rcases List.mem_cons.mp h0 with rfl | hmem
    · have hrest : findLast p rest = none := by
        rw [findLast_eq_none_iff]
        intro x hx
        by_contra hpx
        have hpx2 : p x = true := by
          cases hpc : p x with
          | true => rfl
          | false => exact absurd hpc hpx
        have h1 : r0.ts ≤ x.ts := hmin x (List.mem_cons_of_mem _ hx) hpx2
        have h2 : x.ts < r0.ts := (List.pairwise_cons.mp hs).1 x hx
        omega
      simp [findLast, hrest, hp]
    · have hrest : findLast p rest = some r0 :=
        ih (List.pairwise_cons.mp hs).2 hmem
          (fun x hx hpx => hmin x (List.mem_cons_of_mem _ hx) hpx)
      simp [findLast, hrest]

/-! ## What one pivot-loop iteration does to the correct counters -/

theorem stepStats_user_correct (st : StatsState) (r : Response) :
    (stepStats st r).user_correct =
      (let st1uc :=
        if (lookupA st.user_answers r.user_id).isNone then
          st.user_correct ++ [(r.user_id, 0)]
        else st.user_correct
      if truthy r.is_correct then
        setA st1uc r.user_id ((lookupA st1uc r.user_id).getD 0 + 1)
      else st1uc) := by
  by_cases h : (lookupA st.user_answers r.user_id).isNone <;>
    by_cases h2 : truthy r.is_correct <;>
      simp [stepStats, h, h2]

/-- The pivot loop keeps `user_answers` and `user_correct` keyed by the same
participants. -/
def keysAligned (st : StatsState) : Prop :=
  ∀ uid, (lookupA st.user_answers uid).isSome = (lookupA st.user_correct uid).isSome

theorem lookupA_setA_isSome {α : Type} (m : List (String × α)) (k k2 : String) (v : α) :
    (lookupA (setA m k v) k2).isSome = (k = k2 || (lookupA m k2).isSome) := by
  by_cases h : k = k2
  · subst h
    simp [lookupA_setA_self]
  · simp [lookupA_setA_ne _ _ _ _ h, h]

theorem lookupA_append_isSome {α : Type} (m : List (String × α)) (k k2 : String) (v : α)
    (hm : lookupA m k = none) :
    (lookupA (m ++ [(k, v)]) k2).isSome = (k = k2 || (lookupA m k2).isSome) := by
  by_cases h : k = k2
  · subst h
    simp [lookupA_append_self _ _ _ hm]
  · simp [lookupA_append_ne _ _ _ _ h, h]

theorem keysAligned_step (st : StatsState) (r : Response) (h : keysAligned st) :
    keysAligned (stepStats st r) := by
  intro uid
  have hua := stepStats_user_answers st r
  have huc := stepStats_user_correct st r
  simp only at hua huc
  rw [hua, huc]
  by_cases hn : (lookupA st.user_answers r.user_id).isNone = true
  · have hnone : lookupA st.user_answers r.user_id = none :=
      Option.isNone_iff_eq_none.mp hn
    have hcnone : lookupA st.user_correct r.user_id = none := by
      cases hc : lookupA st.user_correct r.user_id with
      | none => rfl
      | some v =>
        have hx := h r.user_id
        rw [hnone, hc] at hx
        simp at hx
    rw [if_pos hn, if_pos hn]
    by_cases ht : truthy r.is_correct = true
    · rw [if_pos ht, lookupA_setA_isSome, lookupA_setA_isSome,
        lookupA_append_isSome _ _ _ _ hnone, lookupA_append_isSome _ _ _ _ hcnone, h uid]
    · rw [if_neg ht, lookupA_setA_isSome, lookupA_append_isSome _ _ _ _ hnone,
        lookupA_append_isSome _ _ _ _ hcnone, h uid]
      cases hd : decide (r.user_id = uid) <;>
        cases hc : (lookupA st.user_correct uid).isSome <;> simp
  · rw [if_neg hn, if_neg hn]
    by_cases ht : truthy r.is_correct = true
    · rw [if_pos ht, lookupA_setA_isSome, lookupA_setA_isSome, h uid]
    · rw [if_neg ht, lookupA_setA_isSome, h uid]
      cases hd : decide (r.user_id = uid) with
      | false => simp
      | true =>
        have he : r.user_id = uid := of_decide_eq_true hd
        have hsome : (lookupA st.user_correct r.user_id).isSome = true := by
          rw [← h r.user_id]
          cases hcx : lookupA st.user_answers r.user_id with
          | none =>
            rw [hcx] at hn
            simp at hn
          | some v => simp
        rw [he] at hsome
        rw [hsome]
        simp

theorem user_correct_step (st : StatsState) (r : Response) (uid : String)
    (h : keysAligned st) :
    (lookupA (stepStats st r).user_correct uid).getD 0 =
      (lookupA st.user_correct uid).getD 0 +
        (if uid = r.user_id ∧ truthy r.is_correct then 1 else 0) := by
  have huc := stepStats_user_correct st r
  simp only at huc
  rw [huc]
  by_cases hu : uid = r.user_id
  · by_cases hn : (lookupA st.user_answers r.user_id).isNone = true
    · have hnone : lookupA st.user_answers r.user_id = none :=
        Option.isNone_iff_eq_none.mp hn
      have hcnone : lookupA st.user_correct r.user_id = none := by
        cases hc : lookupA st.user_correct r.user_id with
        | none => rfl
        | some v =>
          have hx := h r.user_id
          rw [hnone, hc] at hx
          simp at hx
      rw [if_pos hn]
      by_cases ht : truthy r.is_correct = true
      · rw [if_pos ht, hu, lookupA_setA_self, lookupA_append_self _ _ _ hcnone, hcnone]
        simp [ht]
      · rw [if_neg ht, hu, lookupA_append_self _ _ _ hcnone, hcnone]
        simp [ht]
    · rw [if_neg hn]
      have hsome : (lookupA st.user_correct r.user_id).isSome = true := by
        have hx := h r.user_id
        rw [← hx]
        cases hc : lookupA st.user_answers r.user_id with
        | none =>
          rw [hc] at hn
          simp at hn
        | some v => simp
      obtain ⟨n, hnv⟩ := Option.isSome_iff_exists.mp hsome
      by_cases ht : truthy r.is_correct = true
      · rw [if_pos ht, hu, lookupA_setA_self, hnv]
        simp [ht]
      · rw [if_neg ht, hu]
        simp [ht]
  · have hcond : ¬(uid = r.user_id ∧ truthy r.is_correct = true) := fun hc => hu hc.1
    have hu2 : r.user_id ≠ uid := fun hh => hu hh.symm
    rw [if_neg hcond]
    by_cases hn : (lookupA st.user_answers r.user_id).isNone = true
    · rw [if_pos hn]
      by_cases ht : truthy r.is_correct = true
      · rw [if_pos ht, lookupA_setA_ne _ _ _ _ hu2, lookupA_append_ne _ _ _ _ hu2]
        simp
      · rw [if_neg ht, lookupA_append_ne _ _ _ _ hu2]
        simp
    · rw [if_neg hn]
      by_cases ht : truthy r.is_correct = true
      · rw [if_pos ht, lookupA_setA_ne _ _ _ _ hu2]
        simp
      · rw [if_neg ht]
        simp

theorem user_correct_foldl (raw : List Response) (st : StatsState) (uid : String)
    (h : keysAligned st) :
    (lookupA (raw.foldl stepStats st).user_correct uid).getD 0 =
      (lookupA st.user_correct uid).getD 0 +
        raw.countP (fun r => r.user_id == uid && truthy r.is_correct) := by
  induction raw generalizing st with
  | nil => simp
  | cons r rest ih =>
    rw [List.foldl_cons, ih (stepStats st r) (keysAligned_step st r h),
      user_correct_step st r uid h, List.countP_cons]
    have hb : (r.user_id == uid && truthy r.is_correct) =
        decide (uid = r.user_id ∧ truthy r.is_correct) := by
      by_cases hu : uid = r.user_id
      · subst hu
        by_cases ht : truthy r.is_correct <;> simp [ht]
      · have hu2 : ¬(r.user_id = uid) := fun hh => hu hh.symm
        simp [hu, hu2]
    rw [hb]
    by_cases hc : uid = r.user_id ∧ truthy r.is_correct = true
    · simp [hc]
      omega
    · simp [hc]

/-! ## Per-figure counter lemmas -/

theorem lookupA_map_zero (figures : List String) (fig : String) (h : fig ∈ figures) :
    lookupA (figures.map (fun f => (f, (0 : Nat)))) fig = some 0 := by
  induction figures with
  | nil => simp at h
  | cons f rest ih =>
    by_cases hf : f = fig
    · simp [lookupA, hf]
    · rcases List.mem_cons.mp h with rfl | hmem
      · exact absurd rfl hf
      · simp [lookupA, hf, ih hmem]

theorem figCounts_foldl (raw : List Response) (t c : List (String × Nat))
    (fig : String) (n m : Nat) (ht : lookupA t fig = some n) (hc : lookupA c fig = some m) :
    lookupA (raw.foldl stepFigCounts (t, c)).1 fig =
      some (n + raw.countP (fun r => r.figure == fig)) ∧
    lookupA (raw.foldl stepFigCounts (t, c)).2 fig =
      some (m + raw.countP (fun r => r.figure == fig && truthy r.is_correct)) := by
  induction raw generalizing t c n m with
  | nil =>
    simp [ht, hc]
  | cons r rest ih =>
    rw [List.foldl_cons]
    by_cases hf : r.figure = fig
    · have hguard : (lookupA t r.figure).isSome = true := by
        rw [hf, ht]
        rfl
      by_cases htr : truthy r.is_correct = true
      · have hstep : stepFigCounts (t, c) r =
            (setA t r.figure ((lookupA t r.figure).getD 0 + 1),
             setA c r.figure ((lookupA c r.figure).getD 0 + 1)) := by
          simp [stepFigCounts, hguard, htr]
        rw [hstep]
        have ht2 : lookupA (setA t r.figure ((lookupA t r.figure).getD 0 + 1)) fig =
            some (n + 1) := by
          rw [hf, ht, lookupA_setA_self]
          rfl
        have hc2 : lookupA (setA c r.figure ((lookupA c r.figure).getD 0 + 1)) fig =
            some (m + 1) := by
          rw [hf, hc, lookupA_setA_self]
          rfl
        obtain ⟨ih1, ih2⟩ := ih _ _ _ _ ht2 hc2
        rw [ih1, ih2, List.countP_cons, List.countP_cons]
        simp [hf, htr]
        constructor <;> omega
      · have hstep : stepFigCounts (t, c) r =
            (setA t r.figure ((lookupA t r.figure).getD 0 + 1), c) := by
          simp [stepFigCounts, hguard, htr]
        rw [hstep]
        have ht2 : lookupA (setA t r.figure ((lookupA t r.figure).getD 0 + 1)) fig =
            some (n + 1) := by
          rw [hf, ht, lookupA_setA_self]
          rfl
        obtain ⟨ih1, ih2⟩ := ih _ _ _ _ ht2 hc
        rw [ih1, ih2, List.countP_cons, List.countP_cons]
        simp [hf, htr]
        omega
    · have hf2 : r.figure ≠ fig := hf
      have hkey : ∀ u : List (String × Nat), ∀ k, lookupA u fig = some k →
          lookupA (setA u r.figure ((lookupA u r.figure).getD 0 + 1)) fig = some k := by
        intro u k hk
        rw [lookupA_setA_ne _ _ _ _ hf2, hk]
      by_cases hguard : (lookupA t r.figure).isSome = true
      · by_cases htr : truthy r.is_correct = true
        · have hstep : stepFigCounts (t, c) r =
              (setA t r.figure ((lookupA t r.figure).getD 0 + 1),
               setA c r.figure ((lookupA c r.figure).getD 0 + 1)) := by
            simp [stepFigCounts, hguard, htr]
          rw [hstep]
          obtain ⟨ih1, ih2⟩ := ih _ _ _ _ (hkey t n ht) (hkey c m hc)
          rw [ih1, ih2, List.countP_cons, List.countP_cons]
          simp [hf]
        · have hstep : stepFigCounts (t, c) r =
              (setA t r.figure ((lookupA t r.figure).getD 0 + 1), c) := by
            simp [stepFigCounts, hguard, htr]
          rw [hstep]
          obtain ⟨ih1, ih2⟩ := ih _ _ _ _ (hkey t n ht) hc
          rw [ih1, ih2, List.countP_cons, List.countP_cons]
          simp [hf]
      · have hstep : stepFigCounts (t, c) r = (t, c) := by
          simp [stepFigCounts, hguard]
        rw [hstep]
        obtain ⟨ih1, ih2⟩ := ih _ _ _ _ ht hc
        rw [ih1, ih2, List.countP_cons, List.countP_cons]
        simp [hf]

/-! ## Stable-sort membership -/

theorem mem_insertByKey (key : String → Nat) (x y : String) (l : List String) :
    y ∈ insertByKey key x l ↔ y = x ∨ y ∈ l := by
  induction l with
  | nil => simp [insertByKey]
  | cons z rest ih =>
    by_cases h : key z ≤ key x
    · simp only [insertByKey, h, if_pos, List.mem_cons, ih]
      tauto
    · simp only [insertByKey, h, if_neg, if_false, List.mem_cons]

theorem mem_sortByKey (key : String → Nat) (l : List String) (y : String) :
    y ∈ sortByKey key l ↔ y ∈ l := by
  have haux : ∀ (l2 : List String) (acc : List String),
      y ∈ l2.foldl (fun a x => insertByKey key x a) acc ↔ y ∈ acc ∨ y ∈ l2 := by
    intro l2
    induction l2 with
    | nil => simp
    | cons z rest ih =>
      intro acc
      rw [List.foldl_cons, ih, mem_insertByKey]
      simp
      tauto
  rw [sortByKey, haux]
  simp

/-! ## Survey-view inversion helpers -/

theorem surveyGet_of_complete (sess : SurveySession) (dirFigs : List String)
    (h : (effectiveFigs sess dirFigs).length ≤ sess.idx) :
    surveyGet sess dirFigs = .redirectComplete := by
  simp [surveyGet, h]

theorem surveyPost_of_complete (sess : SurveySession) (dirFigs : List String)
    (form_choice : Option String) (now : Nat)
    (h : (effectiveFigs sess dirFigs).length ≤ sess.idx) :
    surveyPost sess dirFigs form_choice now = .redirectComplete := by
  simp [surveyPost, h]

theorem surveyGet_page_shape (sess : SurveySession) (dirFigs : List String)
    (fig : String) (q : Question) (i n p : Nat)
    (h : surveyGet sess dirFigs = .page fig q i n p) :
    sess.idx < (effectiveFigs sess dirFigs).length ∧
    fig = (effectiveFigs sess dirFigs).getD sess.idx "" ∧
    q = questionFor ((effectiveFigs sess dirFigs).getD sess.idx "") ∧
    i = sess.idx ∧ n = (effectiveFigs sess dirFigs).length ∧
    p = pctOf sess.idx (effectiveFigs sess dirFigs).length := by
  by_cases hlen : (effectiveFigs sess dirFigs).length ≤ sess.idx
  · rw [surveyGet_of_complete sess dirFigs hlen] at h
    exact absurd h (by simp)
  · simp only [surveyGet, hlen, if_neg, if_false] at h
    obtain ⟨rfl, rfl, rfl, rfl, rfl⟩ := GetResult.page.inj h
    exact ⟨Nat.lt_of_not_le hlen, rfl, rfl, rfl, rfl, rfl⟩

theorem surveyPost_submitted_shape (sess : SurveySession) (dirFigs : List String)
    (form_choice : Option String) (now : Nat) (rec : Response) (newIdx : Nat)
    (h : surveyPost sess dirFigs form_choice now = .submitted rec newIdx) :
    sess.idx < (effectiveFigs sess dirFigs).length ∧
    rec = { ts := now
            user_id := sess.user_id.getD "unknown"
            figure := (effectiveFigs sess dirFigs).getD sess.idx ""
            question := (questionFor ((effectiveFigs sess dirFigs).getD sess.idx "")).prompt
            choice := form_choice.getD ""
            correct_choice := (questionFor ((effectiveFigs sess dirFigs).getD sess.idx "")).correct
            is_correct :=
              match (questionFor ((effectiveFigs sess dirFigs).getD sess.idx "")).correct with
              | none => none
              | some c => some (if form_choice.getD "" = c then 1 else 0) } ∧
    newIdx = sess.idx + 1 := by
  by_cases hlen : (effectiveFigs sess dirFigs).length ≤ sess.idx
  · rw [surveyPost_of_complete sess dirFigs form_choice now hlen] at h
    exact absurd h (by simp)
  · simp only [surveyPost, hlen, if_neg, if_false] at h
    obtain ⟨rfl, rfl⟩ := PostResult.submitted.inj h
    exact ⟨Nat.lt_of_not_le hlen, rfl, rfl⟩

theorem surveyPost_submitted_of_lt (sess : SurveySession) (dirFigs : List String)
    (form_choice : Option String) (now : Nat)
    (h : sess.idx < (effectiveFigs sess dirFigs).length) :
    surveyPost sess dirFigs form_choice now =
      .submitted
        { ts := now
          user_id := sess.user_id.getD "unknown"
          figure := (effectiveFigs sess dirFigs).getD sess.idx ""
          question := (questionFor ((effectiveFigs sess dirFigs).getD sess.idx "")).prompt
          choice := form_choice.getD ""
          correct_choice := (questionFor ((effectiveFigs sess dirFigs).getD sess.idx "")).correct
          is_correct :=
            match (questionFor ((effectiveFigs sess dirFigs).getD sess.idx "")).correct with
            | none => none
            | some c => some (if form_choice.getD "" = c then 1 else 0) }
        (sess.idx + 1) := by
  simp only [surveyPost, Nat.not_le.mpr h, if_false]

/-! ## Claim C2: correctness grading of a submission -/

/-- C2: for every submission on the current question, when the question has a
defined correct choice the stored `is_correct` is `1` exactly when the
submitted choice equals that correct choice and `0` for any other choice;
when the question has no defined correct choice `is_correct` is null; and a
missing `choice` form field is treated as the empty-string choice (the
submission is not rejected). -/
theorem submitted_is_correct (sess : SurveySession) (dirFigs : List String)
    (form_choice : Option String) (now : Nat) :
    (∀ rec newIdx, surveyPost sess dirFigs form_choice now = .submitted rec newIdx →
      (∀ c, (questionFor ((effectiveFigs sess dirFigs).getD sess.idx "")).correct = some c →
        rec.is_correct = some (if form_choice.getD "" = c then 1 else 0) ∧
        (rec.is_correct = some 1 ↔ form_choice.getD "" = c)) ∧
      ((questionFor ((effectiveFigs sess dirFigs).getD sess.idx "")).correct = none →
        rec.is_correct = none)) ∧
    surveyPost sess dirFigs none now = surveyPost sess dirFigs (some "") now := by
  constructor
  · intro rec newIdx h
    obtain ⟨hlt, hrec, hidx⟩ :=
      surveyPost_submitted_shape sess dirFigs form_choice now rec newIdx h
    subst hrec
    constructor
    · intro c hc
      simp only [hc]
      constructor
      · trivial
      · by_cases he : form_choice.getD "" = c <;> simp [he]
    · intro hc
      simp only [hc]
  · rfl

/-- Witness for C2 at a concrete submission of the correct choice to the
first catalog question. -/
theorem submitted_is_correct_witness :
    ((∀ rec newIdx,
        surveyPost ⟨some "u", 0, some ["Devin-Figure1-NoAids.png"]⟩ [] (some "Less") 3 =
          .submitted rec newIdx →
        (∀ c,
          (questionFor ((effectiveFigs ⟨some "u", 0, some ["Devin-Figure1-NoAids.png"]⟩
              []).getD 0 "")).correct = some c →
          rec.is_correct = some (if (some "Less").getD "" = c then 1 else 0) ∧
          (rec.is_correct = some 1 ↔ (some "Less").getD "" = c)) ∧
        ((questionFor ((effectiveFigs ⟨some "u", 0, some ["Devin-Figure1-NoAids.png"]⟩
            []).getD 0 "")).correct = none →
          rec.is_correct = none)) ∧
      surveyPost ⟨some "u", 0, some ["Devin-Figure1-NoAids.png"]⟩ [] none 3 =
        surveyPost ⟨some "u", 0, some ["Devin-Figure1-NoAids.png"]⟩ [] (some "") 3) :=
  submitted_is_correct ⟨some "u", 0, some ["Devin-Figure1-NoAids.png"]⟩ [] (some "Less") 3

/-! ## Claim C4: progress percentage -/

/-- C4 (counterexample): at index 29 of a 50-figure session the rendered
percentage is 57, while `floor(29 / 50 * 100) = floor(29 * 100 / 50) = 58`:
the double of `29 / 50` lies just below `0.58` and the product with 100
just below 58, so truncation lands one below the exact floor. Moreover the
double computation can even reach 100 (at `idx = 2^54 - 1`, `n = 2^54` the
quotient rounds up to `1.0`), so the claimed interval `[0, 100)` fails
as well. -/
theorem progress_pct_floor_cex :
    surveyGet ⟨none, 29, some (List.replicate 50 "f.png")⟩ [] =
      .page "f.png" (questionFor "f.png") 29 50 57 ∧
    29 * 100 / 50 = 58 ∧ ⌊(29 : ℚ) / (50 : ℚ) * 100⌋₊ = 58 ∧
    pctOf (2 ^ 54 - 1) (2 ^ 54) = 100 := by
  refine ⟨by decide, by norm_num, ?_, by decide⟩
  rw [show (29 : ℚ) / (50 : ℚ) * 100 = 58 by norm_num]
  norm_num

/-- C4 (amended): on every rendered survey page the progress percentage is
the binary64 computation `int(idx / n * 100)` (`pctOf`), which can land one
below the exact `floor(idx * 100 / n)`; it is monotonically non-decreasing
in the index and lies in `[0, 100]` (the value 100 is reachable only
through double rounding at astronomically large figure counts). -/
theorem progress_pct_float (sess : SurveySession) (dirFigs : List String)
    (fig : String) (q : Question) (i n p : Nat)
    (h : surveyGet sess dirFigs = .page fig q i n p) :
    i < n ∧ p = pctOf i n ∧
    (∀ j k, j ≤ k → pctOf j n ≤ pctOf k n) ∧ p ≤ 100 := by
  obtain ⟨hlt, hfig, hq, hi, hn, hp⟩ := surveyGet_page_shape sess dirFigs fig q i n p h
  subst hi
  subst hn
  subst hp
  exact ⟨hlt, rfl, fun j k hjk => pctOf_mono _ hjk, pctOf_le_100 hlt⟩

/-- Witness for the amended C4 at index 1 of a two-figure session. -/
theorem progress_pct_float_witness :
    1 < 2 ∧ 50 = pctOf 1 2 ∧
    (∀ j k, j ≤ k → pctOf j 2 ≤ pctOf k 2) ∧ 50 ≤ 100 :=
  progress_pct_float ⟨none, 1, some ["a.png", "b.png"]⟩ [] "b.png"
    (questionFor "b.png") 1 2 50 (by decide)

/-! ## Claim C7: empty figure list means immediate completion, no division -/

/-- C7: when the effective figure list is empty both survey requests
immediately redirect to the completion view, and the division that computes
the progress percentage is unreachable (every rendered page has a nonzero
figure count as divisor). -/
theorem empty_figs_no_division (sess : SurveySession) (dirFigs : List String)
    (form_choice : Option String) (now : Nat) :
    (effectiveFigs sess dirFigs = [] →
      surveyGet sess dirFigs = .redirectComplete ∧
      surveyPost sess dirFigs form_choice now = .redirectComplete) ∧
    (∀ fig q i n p, surveyGet sess dirFigs = .page fig q i n p → 0 < n) := by
  constructor
  · intro he
    have hlen : (effectiveFigs sess dirFigs).length ≤ sess.idx := by
      rw [he]
      exact Nat.zero_le _
    exact ⟨surveyGet_of_complete _ _ hlen,
      surveyPost_of_complete _ _ _ _ hlen⟩
  · intro fig q i n p h
    obtain ⟨hlt, _, _, _, hn, _⟩ := surveyGet_page_shape sess dirFigs fig q i n p h
    omega

/-- Witness for C7 with an empty directory and no stored order. -/
theorem empty_figs_no_division_witness :
    surveyGet ⟨none, 0, none⟩ [] = .redirectComplete ∧
    surveyPost ⟨none, 0, none⟩ [] (some "x") 0 = .redirectComplete :=
  (empty_figs_no_division ⟨none, 0, none⟩ [] (some "x") 0).1 rfl

/-! ## Claim C10: an empty or absent session figure order is relisted -/

/-- C10: when the session stores no figure order (or an empty one), the
survey view substitutes the fresh directory listing; a participant at index
0 with a non-empty directory is shown a question, not the completion view. -/
theorem empty_session_relist (sess : SurveySession) (dirFigs : List String) :
    ((sess.figs = none ∨ sess.figs = some []) → effectiveFigs sess dirFigs = dirFigs) ∧
    ((sess.figs = none ∨ sess.figs = some []) → sess.idx = 0 → dirFigs ≠ [] →
      surveyGet sess dirFigs =
        .page (dirFigs.getD 0 "") (questionFor (dirFigs.getD 0 "")) 0 dirFigs.length 0) := by
  have heff : (sess.figs = none ∨ sess.figs = some []) →
      effectiveFigs sess dirFigs = dirFigs := by
    intro h
    rcases h with h | h <;> simp [effectiveFigs, h]
  refine ⟨heff, ?_⟩
  intro h h0 hne
  have he := heff h
  have hlen : 0 < dirFigs.length := List.length_pos.mpr hne
  simp only [surveyGet, he, h0]
  rw [if_neg (by omega)]
  simp [pctOf_zero]

/-- Witness for C10: a session that started with an empty directory, once
the directory holds one figure. -/
theorem empty_session_relist_witness :
    surveyGet ⟨none, 0, some []⟩ ["a.png"] =
      .page ((["a.png"] : List String).getD 0 "")
        (questionFor ((["a.png"] : List String).getD 0 ""))
        0 (["a.png"] : List String).length 0 :=
  (empty_session_relist ⟨none, 0, some []⟩ ["a.png"]).2 (Or.inr rfl) rfl (by decide)

/-! ## Claim C3: completion blocks further submissions -/

theorem runPosts_fills (dirFigs : List String) (l : List String) (hl : l ≠ [])
    (inputs : List (Option String × Nat)) :
    ∀ sess : SurveySession, sess.figs = some l →
      sess.idx + inputs.length ≤ l.length →
      (runPosts dirFigs sess inputs).1 = { sess with idx := sess.idx + inputs.length } ∧
      (runPosts dirFigs sess inputs).2.length = inputs.length := by
  induction inputs with
  | nil =>
    intro sess hfigs hle
    simp [runPosts]
  | cons cn rest ih =>
    intro sess hfigs hle
    obtain ⟨c, now⟩ := cn
    have heff : effectiveFigs sess dirFigs = l := by
      simp [effectiveFigs, hfigs, hl]
    have hlt : sess.idx < (effectiveFigs sess dirFigs).length := by
      rw [heff]
      simp at hle
      omega
    have hpost := surveyPost_submitted_of_lt sess dirFigs c now hlt
    simp only [runPosts, hpost]
    have hih := ih { sess with idx := sess.idx + 1 } (by simp [hfigs]) (by simp at hle ⊢; omega)
    constructor
    · rw [hih.1]
      have harith : sess.idx + 1 + rest.length = sess.idx + (rest.length + 1) := by omega
      simp [harith]
    · simp [hih.2]

/-- C3: whenever the session index has reached the figure count, both the
read and the submit branch of the survey view redirect to the completion
view and no row is inserted; in particular, starting from index 0 over a
stored figure order of length `n`, after `n` submissions the index is `n`,
exactly `n` rows were inserted, and any further submission redirects
without inserting. -/
theorem complete_blocks_submissions (sess : SurveySession) (dirFigs : List String)
    (form_choice : Option String) (now : Nat) :
    ((effectiveFigs sess dirFigs).length ≤ sess.idx →
      surveyGet sess dirFigs = .redirectComplete ∧
      surveyPost sess dirFigs form_choice now = .redirectComplete) ∧
    (∀ l : List String, sess.figs = some l → l ≠ [] → sess.idx = 0 →
      ∀ inputs : List (Option String × Nat), inputs.length = l.length →
        (runPosts dirFigs sess inputs).2.length = l.length ∧
        (runPosts dirFigs sess inputs).1.idx = l.length ∧
        surveyPost (runPosts dirFigs sess inputs).1 dirFigs form_choice now =
          .redirectComplete) := by
  constructor
  · intro hle
    exact ⟨surveyGet_of_complete _ _ hle, surveyPost_of_complete _ _ _ _ hle⟩
  · intro l hfigs hl h0 inputs hlen
    obtain ⟨hfinal, hcount⟩ :=
      runPosts_fills dirFigs l hl inputs sess hfigs (by omega)
    have hidx : (runPosts dirFigs sess inputs).1.idx = l.length := by
      rw [hfinal]
      simp [h0, hlen]
    refine ⟨by rw [hcount, hlen], hidx, ?_⟩
    apply surveyPost_of_complete
    have hfigs2 : (runPosts dirFigs sess inputs).1.figs = some l := by
      rw [hfinal]
      simp [hfigs]
    have heff : effectiveFigs (runPosts dirFigs sess inputs).1 dirFigs = l := by
      simp [effectiveFigs, hfigs2, hl]
    rw [heff, hidx]

/-- Witness for C3: one figure, one accepted submission, then a blocked one. -/
theorem complete_blocks_submissions_witness :
    (runPosts [] ⟨some "u", 0, some ["a.png"]⟩ [(some "A", 1)]).2.length = 1 ∧
    (runPosts [] ⟨some "u", 0, some ["a.png"]⟩ [(some "A", 1)]).1.idx = 1 ∧
    surveyPost (runPosts [] ⟨some "u", 0, some ["a.png"]⟩ [(some "A", 1)]).1 []
      (some "B") 2 = .redirectComplete :=
  (complete_blocks_submissions ⟨some "u", 0, some ["a.png"]⟩ [] (some "B") 2).2
    ["a.png"] rfl (by decide) rfl [(some "A", 1)] rfl

/-! ## Claim C1: participant row ordering in the stats pivot -/

/-- C1 (refuted on the code): on the descending-timestamp input `rawC1`,
participant `alice` has responses at times 10 and 1 (earliest 1) and `bob`
at time 5 (earliest 5), so ordering ascending by earliest response time
would list `alice` before `bob`; the pivot instead stores each
participant's latest timestamp (10 for `alice`) and lists `bob` first.
The loop's own comment says the dict holds each participant's earliest
timestamp, so the code contradicts its documentation. -/
theorem stats_row_order_uses_latest_ts :
    rawC1.Pairwise (fun a b => b.ts < a.ts) ∧
    (rawC1.filter (fun r => r.user_id == "alice")).map Response.ts = [10, 1] ∧
    (rawC1.filter (fun r => r.user_id == "bob")).map Response.ts = [5] ∧
    (pivotOf ["f1.png"] rawC1).map PivotRow.user_id = ["bob", "alice"] ∧
    (pivotOf ["f1.png"] rawC1).map PivotRow.ts = [5, 10] := by
  decide

/-! ## Claim C8: duplicate responses keep the earliest choice -/

/-- C8: when a participant has several responses for one figure (distinct
timestamps) the pivot displays the earliest-submitted choice, because the
descending-timestamp iteration overwrites the slot and the record with the
smallest timestamp is written last. -/
theorem stats_pivot_keeps_earliest_choice (raw : List Response)
    (hs : raw.Pairwise (fun a b => b.ts < a.ts)) (r0 : Response) (h0 : r0 ∈ raw)
    (hmin : ∀ r ∈ raw, r.user_id = r0.user_id → r.figure = r0.figure → r0.ts ≤ r.ts) :
    innerChoice (statsStateOf raw) r0.user_id r0.figure = some r0.choice := by
  have hchar := innerChoice_foldl raw ⟨[], [], []⟩ r0.user_id r0.figure
  have hfl := findLast_min_ts (fun r => r.user_id == r0.user_id && r.figure == r0.figure)
    raw hs r0 h0 (by simp)
    (fun r hr hp => by
      simp only [Bool.and_eq_true, beq_iff_eq] at hp
      exact hmin r hr hp.1 hp.2)
  show innerChoice (raw.foldl stepStats ⟨[], [], []⟩) r0.user_id r0.figure = some r0.choice
  rw [hchar, hfl]

/-- Witness for C8: two responses of one participant for one figure at
times 2 and 1; the stored choice is the earliest one. -/
theorem stats_pivot_keeps_earliest_choice_witness :
    innerChoice (statsStateOf rawDup) rawDupEarly.user_id rawDupEarly.figure =
      some "early" :=
  stats_pivot_keeps_earliest_choice rawDup (by decide) rawDupEarly (by decide) (by decide)

/-! ## Claim C9: participant correct counts ignore the figure listing -/

/-- C9: a participant's correct count sums truthy `is_correct` over all of
that participant's rows, with no filter on the current figure listing,
while the per-figure correct counters only count rows whose figure is
listed; on `rawGhost` (one correct response for an unlisted figure) the
participant's correct count strictly exceeds the sum of the per-figure
correct counts over the listing. -/
theorem user_correct_counts_all_figures (raw : List Response) (uid : String)
    (figures : List String) (fig : String) (hf : fig ∈ figures) :
    (lookupA (statsStateOf raw).user_correct uid).getD 0 =
      raw.countP (fun r => r.user_id == uid && truthy r.is_correct) ∧
    lookupA (figCountsOf figures raw).2 fig =
      some (raw.countP (fun r => r.figure == fig && truthy r.is_correct)) ∧
    ((["a.png"] : List String).map
        (fun f => (lookupA (figCountsOf ["a.png"] rawGhost).2 f).getD 0)).sum <
      (lookupA (statsStateOf rawGhost).user_correct "u1").getD 0 := by
  refine ⟨?_, ?_, ?_⟩
  · have h := user_correct_foldl raw ⟨[], [], []⟩ uid (fun u => rfl)
    simpa [statsStateOf, lookupA] using h
  · have h0 : lookupA (figures.map (fun f => (f, (0 : Nat)))) fig = some 0 :=
      lookupA_map_zero figures fig hf
    have h := figCounts_foldl raw (figures.map (fun f => (f, 0)))
      (figures.map (fun f => (f, 0))) fig 0 0 h0 h0
    simpa [figCountsOf] using h.2
  · decide

/-- Witness for C9 at the concrete unlisted-figure input. -/
theorem user_correct_counts_all_figures_witness :
    (lookupA (statsStateOf rawGhost).user_correct "u1").getD 0 =
      rawGhost.countP (fun r => r.user_id == "u1" && truthy r.is_correct) ∧
    lookupA (figCountsOf ["a.png"] rawGhost).2 "a.png" =
      some (rawGhost.countP (fun r => r.figure == "a.png" && truthy r.is_correct)) ∧
    ((["a.png"] : List String).map
        (fun f => (lookupA (figCountsOf ["a.png"] rawGhost).2 f).getD 0)).sum <
      (lookupA (statsStateOf rawGhost).user_correct "u1").getD 0 :=
  user_correct_counts_all_figures rawGhost "u1" ["a.png"] "a.png" (by decide)

/-! ## Claim C5: per-figure accuracy -/

/-- C5 (counterexample): on 2000 responses for one listed figure of which
127 are correct, the exact-rational `round(127 / 2000 * 100, 1)` is 6.4
(the ratio is exactly 6.35%, a tie, and half-to-even rounds up to the even
tenth 64), but the program computes the ratio in binary64, obtaining a
double just below 6.35, and `round` returns the double nearest 6.3 — so
the rendered accuracy differs from the claimed exact formula. -/
theorem fig_accuracy_rounding_cex :
    ∃ s ∈ figStatsOf ["f.png"] raw2000, s.figure = "f.png" ∧ s.total = 2000 ∧
      s.correct = 127 ∧ s.accuracy = some (pyAccuracy 127 2000) ∧
      pyAccuracy 127 2000 = fl (63 / 10) ∧ round1 127 2000 = 32 / 5 ∧
      s.accuracy ≠ some (round1 s.correct s.total) := by
  have hcnt1 : raw2000.countP (fun r => r.figure == "f.png") = 2000 := by
    rw [raw2000, List.countP_append, List.countP_replicate, List.countP_replicate]
    decide
  have hcnt2 : raw2000.countP
      (fun r => r.figure == "f.png" && truthy r.is_correct) = 127 := by
    rw [raw2000, List.countP_append, List.countP_replicate, List.countP_replicate]
    decide
  have h0 : lookupA ((["f.png"] : List String).map (fun f => (f, (0 : Nat))))
      "f.png" = some 0 :=
    lookupA_map_zero _ _ (by simp)
  obtain ⟨h1, h2⟩ := figCounts_foldl raw2000
    ((["f.png"] : List String).map (fun f => (f, 0)))
    ((["f.png"] : List String).map (fun f => (f, 0))) "f.png" 0 0 h0 h0
  rw [hcnt1] at h1
  rw [hcnt2] at h2
  have h1b : lookupA (figCountsOf ["f.png"] raw2000).1 "f.png" = some 2000 := by
    simpa [figCountsOf] using h1
  have h2b : lookupA (figCountsOf ["f.png"] raw2000).2 "f.png" = some 127 := by
    simpa [figCountsOf] using h2
  have hne : pyAccuracy 127 2000 ≠ round1 127 2000 := by decide
  simp only [figStatsOf]
  refine ⟨_, List.mem_map_of_mem _ (by simp : "f.png" ∈ ["f.png"]), rfl,
    ?_, ?_, ?_, by decide, by decide, ?_⟩
  · simp [h1b]
  · simp [h2b]
  · simp [h1b, h2b]
  · simp [h1b, h2b, hne]

/-- C5 (amended): for each listed figure with at least one counted response
the summary accuracy is `round(correct / total * 100, 1)` computed in
binary64 floating point (`pyAccuracy`), which can differ in the last
decimal from the exact-rational rounding; with zero counted responses the
accuracy is null — not zero and not an error. -/
theorem fig_accuracy_rounding (figures : List String) (raw : List Response)
    (fig : String) (hf : fig ∈ figures) :
    ∃ s ∈ figStatsOf figures raw, s.figure = fig ∧
      s.total = raw.countP (fun r => r.figure == fig) ∧
      s.correct = raw.countP (fun r => r.figure == fig && truthy r.is_correct) ∧
      (s.total = 0 → s.accuracy = none) ∧
      (s.total ≠ 0 → s.accuracy = some (pyAccuracy s.correct s.total)) := by
  have h0 : lookupA (figures.map (fun f => (f, (0 : Nat)))) fig = some 0 :=
    lookupA_map_zero figures fig hf
  obtain ⟨h1, h2⟩ := figCounts_foldl raw (figures.map (fun f => (f, 0)))
    (figures.map (fun f => (f, 0))) fig 0 0 h0 h0
  have h1b : lookupA (figCountsOf figures raw).1 fig =
      some (raw.countP (fun r => r.figure == fig)) := by
    simpa [figCountsOf] using h1
  have h2b : lookupA (figCountsOf figures raw).2 fig =
      some (raw.countP (fun r => r.figure == fig && truthy r.is_correct)) := by
    simpa [figCountsOf] using h2
  simp only [figStatsOf]
  refine ⟨_, List.mem_map_of_mem _ hf, rfl, ?_, ?_, ?_, ?_⟩
  · simp [h1b]
  · simp [h2b]
  · intro hz
    simp only [h1b, h2b, Option.getD_some] at hz ⊢
    rw [if_pos hz]
  · intro hz
    simp only [h1b, h2b, Option.getD_some] at hz ⊢
    rw [if_neg hz]

/-- Witness for the amended C5 at one correct response for one listed
figure. -/
theorem fig_accuracy_rounding_witness :
    ∃ s ∈ figStatsOf ["ghost.png"] rawGhost, s.figure = "ghost.png" ∧
      s.total = rawGhost.countP (fun r => r.figure == "ghost.png") ∧
      s.correct = rawGhost.countP
        (fun r => r.figure == "ghost.png" && truthy r.is_correct) ∧
      (s.total = 0 → s.accuracy = none) ∧
      (s.total ≠ 0 → s.accuracy = some (pyAccuracy s.correct s.total)) :=
  fig_accuracy_rounding ["ghost.png"] rawGhost "ghost.png" (by decide)

/-! ## Claim C6: answer rows aligned to the figure list -/

theorem getD_map_of_lt {α β : Type} (l : List α) (f : α → β) (i : Nat)
    (h : i < l.length) (d : β) (d2 : α) :
    (l.map f).getD i d = f (l.getD i d2) := by
  induction l generalizing i with
  | nil => simp at h
  | cons x rest ih =>
    cases i with
    | zero => rfl
    | succ j =>
      simp only [List.map_cons, List.getD_cons_succ]
      exact ih j (by simpa using h)

/-- C6: every rendered participant row has exactly one entry per listed
figure, in list order; an entry is the participant's stored choice for the
figure when the participant has a response for it, and the placeholder
glyph otherwise. -/
theorem pivot_row_alignment (figures : List String) (raw : List Response)
    (row : PivotRow) (hrow : row ∈ pivotOf figures raw) :
    row.answers.length = figures.length ∧
    ∃ uid, row.answers =
        figures.map (fun fig => (innerChoice (statsStateOf raw) uid fig).getD "—") ∧
      ∀ i, i < figures.length →
        ((¬ ∃ r, r ∈ raw ∧ r.user_id = uid ∧ r.figure = figures.getD i "") →
          row.answers.getD i "" = "—") ∧
        ((∃ r, r ∈ raw ∧ r.user_id = uid ∧ r.figure = figures.getD i "") →
          ∃ r, r ∈ raw ∧ r.user_id = uid ∧ r.figure = figures.getD i "" ∧
            row.answers.getD i "" = r.choice) := by
  simp only [pivotOf, List.mem_map] at hrow
  obtain ⟨uid, huidmem, hroweq⟩ := hrow
  subst hroweq
  refine ⟨by simp, uid, rfl, ?_⟩
  intro i hi
  have hentry : (figures.map
        (fun fig => (innerChoice (statsStateOf raw) uid fig).getD "—")).getD i "" =
      (innerChoice (statsStateOf raw) uid (figures.getD i "")).getD "—" :=
    getD_map_of_lt figures _ i hi "" ""
  have hchar : innerChoice (statsStateOf raw) uid (figures.getD i "") =
      (match findLast
          (fun r => r.user_id == uid && r.figure == figures.getD i "") raw with
      | some r => some r.choice
      | none => innerChoice ⟨[], [], []⟩ uid (figures.getD i "")) :=
    innerChoice_foldl raw ⟨[], [], []⟩ uid (figures.getD i "")
  constructor
  · intro hne
    have hnone : findLast
        (fun r => r.user_id == uid && r.figure == figures.getD i "") raw = none := by
      rw [findLast_eq_none_iff]
      intro r hr
      by_contra hp
      have hp2 : (r.user_id == uid && r.figure == figures.getD i "") = true := by
        cases hpc : (r.user_id == uid && r.figure == figures.getD i "") with
        | true => rfl
        | false => exact absurd hpc hp
      simp only [Bool.and_eq_true, beq_iff_eq] at hp2
      exact hne ⟨r, hr, hp2.1, hp2.2⟩
    show (figures.map
        (fun fig => (innerChoice (statsStateOf raw) uid fig).getD "—")).getD i "" = "—"
    rw [hentry, hchar, hnone]
    rfl
  · intro hex
    cases hfl : findLast
        (fun r => r.user_id == uid && r.figure == figures.getD i "") raw with
    | none =>
      obtain ⟨r, hr, hru, hrf⟩ := hex
      have := (findLast_eq_none_iff _ raw).mp hfl r hr
      simp [hru, hrf] at this
    | some x =>
      obtain ⟨hxmem, hxp⟩ := findLast_eq_some _ raw x hfl
      simp only [Bool.and_eq_true, beq_iff_eq] at hxp
      refine ⟨x, hxmem, hxp.1, hxp.2, ?_⟩
      show (figures.map
          (fun fig => (innerChoice (statsStateOf raw) uid fig).getD "—")).getD i "" =
        x.choice
      rw [hentry, hchar, hfl]
      rfl

/-- Witness for C6: a participant who answered figures `A.png` and `C.png`
but not `B.png` out of the ordered listing `[A.png, B.png, C.png]` gets the
row `[ansA, "—", ansC]`. -/
theorem pivot_row_alignment_witness :
    (["ansA", "—", "ansC"] : List String).length =
      (["A.png", "B.png", "C.png"] : List String).length ∧
    ∃ uid, (["ansA", "—", "ansC"] : List String) =
        (["A.png", "B.png", "C.png"] : List String).map
          (fun fig => (innerChoice (statsStateOf rawAC) uid fig).getD "—") ∧
      ∀ i, i < (["A.png", "B.png", "C.png"] : List String).length →
        ((¬ ∃ r, r ∈ rawAC ∧ r.user_id = uid ∧
            r.figure = (["A.png", "B.png", "C.png"] : List String).getD i "") →
          (["ansA", "—", "ansC"] : List String).getD i "" = "—") ∧
        ((∃ r, r ∈ rawAC ∧ r.user_id = uid ∧
            r.figure = (["A.png", "B.png", "C.png"] : List String).getD i "") →
          ∃ r, r ∈ rawAC ∧ r.user_id = uid ∧
            r.figure = (["A.png", "B.png", "C.png"] : List String).getD i "" ∧
            (["ansA", "—", "ansC"] : List String).getD i "" = r.choice) :=
  pivot_row_alignment ["A.png", "B.png", "C.png"] rawAC
    ⟨"p", 2, ["ansA", "—", "ansC"], 0⟩ (by decide)
